import Mathlib

/-!
Verification of the vpc-examples generator.

Shallow embedding of the Go program `src/go/main.go` (the reference
implementation of this repository): the Prism data model, the primary-VPC
selector `findPrimaryVPC`, the template renderer `asTypescriptTemplate`
with its helpers (`camelCase`, `subnetsAsTypescriptArray`,
`publicSubnets`/`privateSubnets`), and the pure core of `main`
(filter/join/render).  String casing is modelled over the ASCII range,
which is the only range the program's inputs exercise (the spec requires
no Unicode-aware casing beyond ASCII letters).
-/

set_option maxRecDepth 16384

namespace Vpc

/-- Struct `PrismSubnet` from `main.go`: a subnet record with a public/private flag. -/
structure PrismSubnet where
  isPublic : Bool
  subnetId : String
deriving DecidableEq

/-- Struct `PrismVPC` from `main.go`: a VPC record with its subnets. -/
structure PrismVPC where
  vpcId : String
  accountId : String
  isDefault : Bool
  subnets : List PrismSubnet
deriving DecidableEq

/-- Struct `PrismAccount` from `main.go`. -/
structure PrismAccount where
  accountNumber : String
  accountName : String
deriving DecidableEq

/-- Struct `Logging` from `main.go`. -/
structure Logging where
  streamName : String
deriving DecidableEq

/-- Struct `AccountInfo` from `main.go` (internal model consumed by the renderer). -/
structure AccountInfo where
  accountNumber : String
  accountName : String
  stack : String
  bucketForArtifact : Option String
  bucketForPrivateConfig : Option String
  logging : Logging
  vpcs : List PrismVPC
deriving DecidableEq

/-- The loop inside the `slices.IndexFunc` predicate of `findPrimaryVPC`:
one pass over the subnets appending each subnet to the public or the
private accumulator according to its `isPublic` flag. -/
def partitionSubnets (subnets : List PrismSubnet) :
    List PrismSubnet × List PrismSubnet :=
  subnets.foldl
    (fun acc subnet =>
      if subnet.isPublic then (acc.1 ++ [subnet], acc.2)
      else (acc.1, acc.2 ++ [subnet]))
    ([], [])

/-- The predicate passed to `slices.IndexFunc` in `findPrimaryVPC`:
`!vpc.IsDefault && len(publicSubnets) == 3 && len(privateSubnets) == 3`. -/
def isPrimaryVPCPred (vpc : PrismVPC) : Bool :=
  let publicSubnets := (partitionSubnets vpc.subnets).1
  let privateSubnets := (partitionSubnets vpc.subnets).2
  !vpc.isDefault && publicSubnets.length == 3 && privateSubnets.length == 3

/-- Go `slices.IndexFunc`: index of the first element satisfying `p`, `-1` if none. -/
def indexFunc {α : Type} (p : α → Bool) (l : List α) : Int :=
  match l.findIdx? p with
  | none => -1
  | some i => i

/-- Function `findPrimaryVPC` from `main.go`: runs `slices.IndexFunc` with
`isPrimaryVPCPred`; on `-1` reports not-found, otherwise returns the
element at the found index.  Go's `(PrismVPC, bool)` convention is
rendered as `Option PrismVPC`. -/
def findPrimaryVPC (vpcs : List PrismVPC) : Option PrismVPC :=
  let i := indexFunc isPrimaryVPCPred vpcs
  if i = -1 then none else vpcs[i.toNat]?

/-- Spec-side predicate, from the words of the claims: the VPC is not the
account's default VPC, has exactly 3 subnets flagged public and exactly 3
subnets flagged private. -/
def IsPrimaryCandidate (v : PrismVPC) : Prop :=
  v.isDefault = false ∧
  v.subnets.countP (fun s => s.isPublic) = 3 ∧
  v.subnets.countP (fun s => !s.isPublic) = 3

instance (v : PrismVPC) : Decidable (IsPrimaryCandidate v) := by
  unfold IsPrimaryCandidate
  infer_instance

/-! ## Selector lemmas -/

theorem partitionSubnets_go (subnets : List PrismSubnet) :
    ∀ acc : List PrismSubnet × List PrismSubnet,
      (subnets.foldl
        (fun acc subnet =>
          if subnet.isPublic then (acc.1 ++ [subnet], acc.2)
          else (acc.1, acc.2 ++ [subnet])) acc).1.length
          = acc.1.length + subnets.countP (fun s => s.isPublic) ∧
      (subnets.foldl
        (fun acc subnet =>
          if subnet.isPublic then (acc.1 ++ [subnet], acc.2)
          else (acc.1, acc.2 ++ [subnet])) acc).2.length
          = acc.2.length + subnets.countP (fun s => !s.isPublic) := by
  induction subnets with
  | nil => intro acc; simp
  | cons s t ih =>
    intro acc
    by_cases hs : s.isPublic = true
    · obtain ⟨ih1, ih2⟩ := ih (acc.1 ++ [s], acc.2)
      simp only [List.foldl_cons, hs, if_true, List.countP_cons, hs]
      constructor
      · rw [ih1]; simp; omega
      · rw [ih2]; simp
    · obtain ⟨ih1, ih2⟩ := ih (acc.1, acc.2 ++ [s])
      simp only [List.foldl_cons, hs, if_false, List.countP_cons]
      rw [if_neg (by simp [hs]), if_neg (by simp [hs])]
      constructor
      · rw [ih1]; simp [hs]
      · rw [ih2]; simp [hs]; omega

theorem length_partitionSubnets_fst (subnets : List PrismSubnet) :
    (partitionSubnets subnets).1.length = subnets.countP (fun s => s.isPublic) := by
  have h := (partitionSubnets_go subnets ([], [])).1
  simpa [partitionSubnets] using h

theorem length_partitionSubnets_snd (subnets : List PrismSubnet) :
    (partitionSubnets subnets).2.length = subnets.countP (fun s => !s.isPublic) := by
  have h := (partitionSubnets_go subnets ([], [])).2
  simpa [partitionSubnets] using h

theorem isPrimaryVPCPred_iff (v : PrismVPC) :
    isPrimaryVPCPred v = true ↔ IsPrimaryCandidate v := by
  unfold isPrimaryVPCPred IsPrimaryCandidate
  simp [length_partitionSubnets_fst, length_partitionSubnets_snd,
    Bool.and_eq_true, and_assoc]

theorem findIdx?_getElem?_eq_find? (p : PrismVPC → Bool) :
    ∀ l : List PrismVPC, (l.findIdx? p).bind (fun i => l[i]?) = l.find? p := by
  intro l
  induction l with
  | nil => rfl
  | cons a t ih =>
    by_cases h : p a = true
    · simp [List.findIdx?_cons, h]
    · rw [List.findIdx?_cons, if_neg (by simp [h]), List.findIdx?_succ,
        List.find?_cons_of_neg _ (by simp [h])]
      cases h2 : t.findIdx? p with
      | none =>
        rw [h2] at ih
        simpa using ih
      | some j =>
        rw [h2] at ih
        simpa using ih

theorem findPrimaryVPC_eq_find? (vpcs : List PrismVPC) :
    findPrimaryVPC vpcs = vpcs.find? isPrimaryVPCPred := by
  rw [← findIdx?_getElem?_eq_find? isPrimaryVPCPred vpcs]
  unfold findPrimaryVPC indexFunc
  cases h : vpcs.findIdx? isPrimaryVPCPred with
  | none => simp [h]
  | some i =>
    have : ((i : Nat) : Int) ≠ -1 := by omega
    simp [h, this]

theorem find?_first (p : PrismVPC → Bool) :
    ∀ {l : List PrismVPC} {b : PrismVPC}, l.find? p = some b →
      p b = true ∧ ∃ pre suf, l = pre ++ b :: suf ∧ ∀ u ∈ pre, p u = false := by
  intro l
  induction l with
  | nil => intro b h; simp at h
  | cons a t ih =>
    intro b h
    by_cases ha : p a = true
    · rw [List.find?_cons_of_pos _ ha] at h
      obtain rfl : a = b := by simpa using h
      exact ⟨ha, [], t, rfl, by simp⟩
    · rw [List.find?_cons_of_neg _ (by simp [ha])] at h
      obtain ⟨hb, pre, suf, rfl, hpre⟩ := ih h
      refine ⟨hb, a :: pre, suf, rfl, ?_⟩
      intro u hu
      rcases List.mem_cons.mp hu with rfl | hu
      · simpa using ha
      · exact hpre u hu

/-- C1: `findPrimaryVPC` returns a VPC exactly when some VPC in the input is
a non-default VPC with exactly 3 public and exactly 3 private subnets, and
when it returns one it is the first VPC of the input satisfying that
predicate. -/
theorem findPrimaryVPC_characterization (vpcs : List PrismVPC) :
    ((findPrimaryVPC vpcs).isSome ↔ ∃ v ∈ vpcs, IsPrimaryCandidate v) ∧
    (∀ v, findPrimaryVPC vpcs = some v →
      IsPrimaryCandidate v ∧
      ∃ pre suf, vpcs = pre ++ v :: suf ∧ ∀ u ∈ pre, ¬ IsPrimaryCandidate u) := by
  constructor
  · rw [findPrimaryVPC_eq_find?, List.find?_isSome]
    constructor
    · rintro ⟨v, hv, hp⟩
      exact ⟨v, hv, (isPrimaryVPCPred_iff v).mp hp⟩
    · rintro ⟨v, hv, hp⟩
      exact ⟨v, hv, (isPrimaryVPCPred_iff v).mpr hp⟩
  · intro v hv
    rw [findPrimaryVPC_eq_find?] at hv
    obtain ⟨hp, pre, suf, rfl, hpre⟩ := find?_first isPrimaryVPCPred hv
    refine ⟨(isPrimaryVPCPred_iff v).mp hp, pre, suf, rfl, ?_⟩
    intro u hu hcand
    have h1 := hpre u hu
    have h2 := (isPrimaryVPCPred_iff u).mpr hcand
    rw [h2] at h1
    simp at h1

/-! ## The camelCase transform

`camelCase` in `main.go` splits on `-` and concatenates `strings.Title`
of every part.  `strings.Title` upper-cases every character that follows
a separator (scanning with a previous-character state initialised to a
space); in the ASCII range a separator is anything that is not a letter,
a digit or an underscore.  `unicode.ToTitle` on ASCII letters is
`Char.toUpper`. -/

/-- Go `strings.isSeparator`, ASCII range: not a letter, not a digit,
not an underscore. -/
def isSeparator (c : Char) : Bool :=
  decide (¬ ((48 ≤ c.toNat ∧ c.toNat ≤ 57) ∨ (97 ≤ c.toNat ∧ c.toNat ≤ 122) ∨
    (65 ≤ c.toNat ∧ c.toNat ≤ 90) ∨ c.toNat = 95))

/-- The character-mapping loop of Go `strings.Title`: upper-case each
character whose predecessor (initially a space) is a separator. -/
def goTitleAux : Char → List Char → List Char
  | _, [] => []
  | prev, c :: cs => (if isSeparator prev then c.toUpper else c) :: goTitleAux c cs

/-- Go `strings.Title` (ASCII model). -/
def strTitle (s : String) : String :=
  ⟨goTitleAux ' ' s.data⟩

/-- Go `strings.Split` with a one-character separator. -/
def splitOnChar (sep : Char) : List Char → List (List Char)
  | [] => [[]]
  | c :: cs =>
    if c = sep then [] :: splitOnChar sep cs
    else
      match splitOnChar sep cs with
      | [] => [[c]]
      | r :: rs => (c :: r) :: rs

/-- Function `camelCase` from `main.go`: split on `-`, `strings.Title` each part,
concatenate in order starting from the empty string. -/
def camelCase (s : String) : String :=
  ((splitOnChar '-' s.data).map (fun part => strTitle ⟨part⟩)).foldl
    (fun out part => out ++ part) ""

/-! ### Character-level lemmas -/

theorem char_eq_of_toNat_eq {a b : Char} (h : a.toNat = b.toNat) : a = b :=
  Char.ext (UInt32.toNat.inj h)

theorem toNat_ofNat_of_valid {n : Nat} (h : n.isValidChar) :
    (Char.ofNat n).toNat = n := by
  rw [Char.ofNat, dif_pos h]; rfl

theorem toNat_toUpper (c : Char) :
    (Char.toUpper c).toNat =
      if 97 ≤ c.toNat ∧ c.toNat ≤ 122 then c.toNat - 32 else c.toNat := by
  have hdef : Char.toUpper c =
      if 97 ≤ c.toNat ∧ c.toNat ≤ 122 then Char.ofNat (c.toNat - 32) else c := by
    unfold Char.toUpper; rfl
  by_cases h : 97 ≤ c.toNat ∧ c.toNat ≤ 122
  · rw [hdef, if_pos h, if_pos h, toNat_ofNat_of_valid (Or.inl (by omega))]
  · rw [hdef, if_neg h, if_neg h]

theorem toUpper_toUpper (c : Char) :
    Char.toUpper (Char.toUpper c) = Char.toUpper c := by
  apply char_eq_of_toNat_eq
  rw [toNat_toUpper (Char.toUpper c), toNat_toUpper c]
  by_cases h : 97 ≤ c.toNat ∧ c.toNat ≤ 122
  · rw [if_pos h, if_neg (by omega)]
  · rw [if_neg h, if_neg h]

theorem isSeparator_toUpper (c : Char) :
    isSeparator (Char.toUpper c) = isSeparator c := by
  unfold isSeparator
  rw [decide_eq_decide, toNat_toUpper c]
  by_cases h : 97 ≤ c.toNat ∧ c.toNat ≤ 122
  · rw [if_pos h]; omega
  · rw [if_neg h]

theorem toUpper_ne_hyphen {c : Char} (h : c ≠ '-') : Char.toUpper c ≠ '-' := by
  intro he
  have hn : (Char.toUpper c).toNat = 45 := by rw [he]; rfl
  rw [toNat_toUpper c] at hn
  by_cases hc : 97 ≤ c.toNat ∧ c.toNat ≤ 122
  · rw [if_pos hc] at hn; omega
  · rw [if_neg hc] at hn
    exact h (char_eq_of_toNat_eq (by rw [hn]; rfl))

/-! ### Title lemmas -/

theorem goTitleAux_cons (prev c : Char) (cs : List Char) :
    goTitleAux prev (c :: cs)
      = (if isSeparator prev then c.toUpper else c) :: goTitleAux c cs := rfl

theorem goTitleAux_idem :
    ∀ (l : List Char) (p q : Char), isSeparator q = isSeparator p →
      goTitleAux q (goTitleAux p l) = goTitleAux p l := by
  intro l
  induction l with
  | nil => intro p q _; rfl
  | cons c cs ih =>
    intro p q hpq
    rw [goTitleAux_cons p c cs]
    by_cases hp : isSeparator p = true
    · rw [if_pos hp, goTitleAux_cons q, hpq, if_pos hp, toUpper_toUpper,
        ih c (Char.toUpper c) (isSeparator_toUpper c)]
    · rw [if_neg hp, goTitleAux_cons q, hpq, if_neg hp, ih c c rfl]

theorem hyphen_not_mem_goTitleAux :
    ∀ (l : List Char) (prev : Char), '-' ∉ l → '-' ∉ goTitleAux prev l := by
  intro l
  induction l with
  | nil => intro prev _ h; simp [goTitleAux] at h
  | cons c cs ih =>
    intro prev hl hmem
    rw [goTitleAux_cons] at hmem
    have hc : c ≠ '-' := fun hc => hl (by rw [hc]; exact List.mem_cons_self _ _)
    have hcs : '-' ∉ cs := fun hm => hl (List.mem_cons_of_mem _ hm)
    rcases List.mem_cons.mp hmem with hh | ht
    · by_cases hp : isSeparator prev = true
      · rw [if_pos hp] at hh
        exact toUpper_ne_hyphen hc hh.symm
      · rw [if_neg hp] at hh
        exact hc hh.symm
    · exact ih c hcs ht

theorem splitOnChar_cons (sep c : Char) (cs : List Char) :
    splitOnChar sep (c :: cs) =
      if c = sep then [] :: splitOnChar sep cs
      else
        match splitOnChar sep cs with
        | [] => [[c]]
        | r :: rs => (c :: r) :: rs := rfl

theorem splitOnChar_of_not_mem {sep : Char} :
    ∀ {l : List Char}, sep ∉ l → splitOnChar sep l = [l] := by
  intro l
  induction l with
  | nil => intro _; rfl
  | cons c cs ih =>
    intro h
    have hc : ¬ (c = sep) := fun hc => h (by rw [hc]; exact List.mem_cons_self _ _)
    have hcs : sep ∉ cs := fun hm => h (List.mem_cons_of_mem _ hm)
    unfold splitOnChar
    rw [ih hcs]
    simp [hc]

theorem foldl_append_data (l : List String) :
    ∀ acc : String,
      (l.foldl (fun out part => out ++ part) acc).data
        = acc.data ++ (l.map String.data).flatten := by
  induction l with
  | nil => intro acc; simp
  | cons a t ih =>
    intro acc
    simp only [List.foldl_cons, List.map_cons, List.flatten_cons]
    rw [ih (acc ++ a)]
    simp

theorem camelCase_data (s : String) :
    (camelCase s).data = ((splitOnChar '-' s.data).map (goTitleAux ' ')).flatten := by
  unfold camelCase
  rw [foldl_append_data]
  simp only [List.map_map]
  rfl

theorem camelCase_of_no_hyphen {s : String} (h : '-' ∉ s.data) :
    (camelCase s).data = goTitleAux ' ' s.data := by
  rw [camelCase_data, splitOnChar_of_not_mem h]
  simp

theorem string_ext {a b : String} (h : a.data = b.data) : a = b := by
  cases a; cases b; cases h; rfl

/-! ### C5: idempotence of camelCase on hyphen-free strings -/

/-- C5: `camelCase "deploy-tools" = "DeployTools"`, and on every
hyphen-free string `camelCase` is idempotent. -/
theorem camelCase_idem :
    camelCase "deploy-tools" = "DeployTools" ∧
    ∀ s : String, '-' ∉ s.data → camelCase (camelCase s) = camelCase s := by
  constructor
  · decide
  · intro s h
    apply string_ext
    have h1 : '-' ∉ (camelCase s).data := by
      rw [camelCase_of_no_hyphen h]
      exact hyphen_not_mem_goTitleAux _ ' ' h
    rw [camelCase_of_no_hyphen h1, camelCase_of_no_hyphen h,
      goTitleAux_idem _ ' ' ' ' rfl]

/-- Witness for C5 at the concrete hyphen-free string `"DeployTools"`. -/
theorem camelCase_idem_witness :
    camelCase (camelCase "DeployTools") = camelCase "DeployTools" :=
  camelCase_idem.2 "DeployTools" (by decide)

/-! ### C4: counterexample and amended statement -/

/-- C4 counterexample: the code Title-cases the first segment as well, so
`camelCase "deploy-tools"` is `"DeployTools"`, not `"deployTools"`. -/
theorem camelCase_first_segment_counterexample :
    camelCase "deploy-tools" ≠ "deployTools" := by decide

/-- Spec-side (amended C4): upper-case the first character of a segment. -/
def upFirstSeg : List Char → List Char
  | [] => []
  | c :: cs => c.toUpper :: cs

/-- Spec-side (amended C4): hyphen-join a list of segments. -/
def joinHyphen : List (List Char) → List Char
  | [] => []
  | [seg] => seg
  | seg :: rest => seg ++ '-' :: joinHyphen rest

theorem goTitleAux_of_all_nonsep_aux :
    ∀ (l : List Char) (prev : Char), (∀ c ∈ l, isSeparator c = false) →
      isSeparator prev = false → goTitleAux prev l = l := by
  intro l
  induction l with
  | nil => intro prev _ _; rfl
  | cons c cs ih =>
    intro prev hall hprev
    rw [goTitleAux_cons, if_neg (by simp [hprev]),
      ih c (fun d hd => hall d (List.mem_cons_of_mem _ hd))
        (hall c (List.mem_cons_self _ _))]

theorem goTitleAux_of_all_nonsep :
    ∀ (l : List Char) (prev : Char), (∀ c ∈ l, isSeparator c = false) →
      isSeparator prev = true → goTitleAux prev l = upFirstSeg l := by
  intro l prev hall hprev
  cases l with
  | nil => rfl
  | cons c cs =>
    rw [goTitleAux_cons, if_pos hprev]
    show _ = c.toUpper :: cs
    rw [goTitleAux_of_all_nonsep_aux cs c
      (fun d hd => hall d (List.mem_cons_of_mem _ hd))
      (hall c (List.mem_cons_self _ _))]

theorem splitOnChar_append_hyphen :
    ∀ (seg m : List Char), '-' ∉ seg →
      splitOnChar '-' (seg ++ '-' :: m) = seg :: splitOnChar '-' m := by
  intro seg
  induction seg with
  | nil =>
    intro m _
    show splitOnChar '-' ('-' :: m) = [] :: splitOnChar '-' m
    rw [splitOnChar_cons, if_pos rfl]
  | cons c cs ih =>
    intro m h
    have hc : ¬ (c = '-') := fun hc => h (by rw [hc]; exact List.mem_cons_self _ _)
    have hcs : '-' ∉ cs := fun hm => h (List.mem_cons_of_mem _ hm)
    show splitOnChar '-' (c :: (cs ++ '-' :: m)) = (c :: cs) :: splitOnChar '-' m
    rw [splitOnChar_cons, if_neg hc, ih m hcs]

theorem splitOnChar_joinHyphen :
    ∀ segs : List (List Char), segs ≠ [] → (∀ seg ∈ segs, '-' ∉ seg) →
      splitOnChar '-' (joinHyphen segs) = segs := by
  intro segs
  induction segs with
  | nil => intro h; exact absurd rfl h
  | cons seg rest ih =>
    intro _ hall
    cases rest with
    | nil =>
      show splitOnChar '-' (joinHyphen [seg]) = [seg]
      rw [show joinHyphen [seg] = seg from rfl]
      exact splitOnChar_of_not_mem (hall seg (List.mem_cons_self _ _))
    | cons r2 rs =>
      rw [show joinHyphen (seg :: r2 :: rs) = seg ++ '-' :: joinHyphen (r2 :: rs) from rfl]
      rw [splitOnChar_append_hyphen _ _ (hall seg (List.mem_cons_self _ _))]
      rw [ih (by simp) (fun s hs => hall s (List.mem_cons_of_mem _ hs))]

theorem hyphen_is_separator : isSeparator '-' = true := by decide

/-- C4 (amended): `camelCase` splits on hyphens and upper-cases the first
character of every segment, the first segment included; in particular
`camelCase "deploy-tools" = "DeployTools"`. -/
theorem camelCase_amended :
    camelCase "deploy-tools" = "DeployTools" ∧
    ∀ segs : List (List Char), segs ≠ [] →
      (∀ seg ∈ segs, ∀ c ∈ seg, isSeparator c = false) →
      camelCase ⟨joinHyphen segs⟩ = ⟨(segs.map upFirstSeg).flatten⟩ := by
  constructor
  · decide
  · intro segs hne hall
    apply string_ext
    rw [camelCase_data]
    show ((splitOnChar '-' (joinHyphen segs)).map (goTitleAux ' ')).flatten
      = (segs.map upFirstSeg).flatten
    rw [splitOnChar_joinHyphen segs hne (fun seg hs hmem => by
      have := hall seg hs '-' hmem
      rw [hyphen_is_separator] at this
      exact Bool.noConfusion this)]
    congr 1
    apply List.map_congr_left
    intro seg hs
    exact goTitleAux_of_all_nonsep seg ' ' (hall seg hs) (by decide)

/-- Witness for the amended C4 at the concrete segments of
`"deploy-tools"`. -/
theorem camelCase_amended_witness :
    camelCase ⟨joinHyphen [['d','e','p','l','o','y'], ['t','o','o','l','s']]⟩
      = ⟨([['d','e','p','l','o','y'], ['t','o','o','l','s']].map upFirstSeg).flatten⟩ :=
  camelCase_amended.2 [['d','e','p','l','o','y'], ['t','o','o','l','s']]
    (by decide) (by decide)

/-! ## Renderer definitions -/

/-- Function `publicSubnets` from `main.go`: keep the subnets flagged public. -/
def publicSubnets (subnets : List PrismSubnet) : List PrismSubnet :=
  subnets.filter (fun subnet => subnet.isPublic)

/-- Function `privateSubnets` from `main.go`: keep the subnets not flagged public. -/
def privateSubnets (subnets : List PrismSubnet) : List PrismSubnet :=
  subnets.filter (fun subnet => !subnet.isPublic)

/-- Function `subnetsAsTypescriptArray` from `main.go`: single-quote each subnet id
and join them with `", "` between brackets (`strings.Join`). -/
def subnetsAsTypescriptArray (subnets : List PrismSubnet) : String :=
  let ids := subnets.map (fun s => "\x27" ++ s.subnetId ++ "\x27")
  "[" ++ String.intercalate ", " ids ++ "]"

/-- The `vpc` local variable of `asTypescriptTemplate` in `main.go`: the
inner `fmt.Sprintf` block when a primary VPC is found (private subnet ids
first, then public), the fixed comment line otherwise. -/
def vpcPart (vpcs : List PrismVPC) : String :=
  match findPrimaryVPC vpcs with
  | none => "// No suitable VPC found."
  | some primaryVPC =>
    "vpc: \x7b\n    primary: \x7b\n        privateSubnets: "
      ++ subnetsAsTypescriptArray (privateSubnets primaryVPC.subnets)
      ++ "\n        publicSubnets: "
      ++ subnetsAsTypescriptArray (publicSubnets primaryVPC.subnets)
      ++ "\n    \x7d\n\x7d"

/-- Function `asTypescriptTemplate` from `main.go`: the outer `fmt.Sprintf`, whose
arguments are, in order, `camelCase(info.AccountName)`,
`info.AccountNumber`, `info.AccountName`, `camelCase(info.AccountName)`
and the vpc block; each string literal below is one gap of the Go format
string between `%s` verbs. -/
def asTypescriptTemplate (info : AccountInfo) : String :=
  "import type \x7b AwsAccountSetupProps \x7d from \x27../types\x27;\n\nexport const "
    ++ camelCase info.accountName
    ++ "Account: AwsAccountSetupProps = \x7b\n    accountNumber: \x27"
    ++ info.accountNumber
    ++ "\x27,\n    accountName: \x27"
    ++ info.accountName
    ++ "\x27,\n    stack: \x27"
    ++ camelCase info.accountName
    ++ "\x27,\n    bucketForArtifacts: \x27TODO\x27,\n    bucketForPrivateConfig: \x27TODO\x27,\n    logging: \x7b\n    streamName: \x27TODO\x27,\n    "
    ++ vpcPart info.vpcs
    ++ "\n\x7d\n"

/-- Spec-side substring scan: does `needle` occur contiguously in `hay`? -/
def containsSub (needle : List Char) : List Char → Bool
  | [] => needle.isPrefixOf []
  | c :: t => needle.isPrefixOf (c :: t) || containsSub needle t

/-- Spec-side substring test, for claims stating that the rendered
document "contains" a given fragment. -/
def strContains (hay needle : String) : Bool :=
  containsSub needle.data hay.data

theorem containsSub_cons (needle : List Char) (c : Char) (t : List Char) :
    containsSub needle (c :: t)
      = (needle.isPrefixOf (c :: t) || containsSub needle t) := rfl

theorem isPrefixOf_append_self (l t : List Char) :
    l.isPrefixOf (l ++ t) = true := by
  induction l with
  | nil => simp
  | cons c cs ih => simp [List.isPrefixOf_cons₂, ih]

theorem containsSub_append_right (needle : List Char) :
    ∀ pre rest : List Char, containsSub needle rest = true →
      containsSub needle (pre ++ rest) = true := by
  intro pre
  induction pre with
  | nil => intro rest h; simpa using h
  | cons p ps ih =>
    intro rest h
    rw [List.cons_append, containsSub_cons, ih rest h]
    simp

theorem containsSub_self_append (needle t : List Char) :
    containsSub needle (needle ++ t) = true := by
  cases needle with
  | nil =>
    cases t with
    | nil => rfl
    | cons c cs => rw [List.nil_append, containsSub_cons]; simp
  | cons n ns =>
    rw [List.cons_append, containsSub_cons]
    have := isPrefixOf_append_self (n :: ns) t
    rw [List.cons_append] at this
    simp [this]

/-! ## Selector claims C2 and C10 -/

/-- C2: whenever `findPrimaryVPC` returns a VPC, it is not the default
VPC, it has exactly 3 subnets with `isPublic = true` and exactly 3 with
`isPublic = false`. -/
theorem findPrimaryVPC_sound (vpcs : List PrismVPC) (v : PrismVPC)
    (h : findPrimaryVPC vpcs = some v) :
    v.isDefault = false ∧
    v.subnets.countP (fun s => s.isPublic) = 3 ∧
    v.subnets.countP (fun s => !s.isPublic) = 3 := by
  rw [findPrimaryVPC_eq_find?] at h
  exact (isPrimaryVPCPred_iff v).mp (List.find?_some h)

theorem countP_isPublic_add (l : List PrismSubnet) :
    l.countP (fun s => s.isPublic) + l.countP (fun s => !s.isPublic)
      = l.length := by
  induction l with
  | nil => rfl
  | cons s t ih => cases h : s.isPublic <;> simp [List.countP_cons, h] <;> omega

/-- C10: a VPC returned by `findPrimaryVPC` has exactly 6 subnets in
total, because the boolean `isPublic` flag partitions the subnets
exhaustively into the 3 public and the 3 private ones. -/
theorem findPrimaryVPC_total_subnets (vpcs : List PrismVPC) (v : PrismVPC)
    (h : findPrimaryVPC vpcs = some v) : v.subnets.length = 6 := by
  rw [findPrimaryVPC_eq_find?] at h
  obtain ⟨_, hpub, hpriv⟩ := (isPrimaryVPCPred_iff v).mp (List.find?_some h)
  have := countP_isPublic_add v.subnets
  omega

/-! ## Concrete test vectors -/

/-- A non-default VPC with 3 public and 3 private subnets. -/
def demoPrimaryVPC : PrismVPC :=
  ⟨"vpc-1", "123", false,
    [⟨true, "a"⟩, ⟨true, "b"⟩, ⟨true, "c"⟩,
     ⟨false, "x"⟩, ⟨false, "y"⟩, ⟨false, "z"⟩]⟩

/-- The account's default VPC. -/
def demoDefaultVPC : PrismVPC := ⟨"vpc-0", "123", true, []⟩

/-- An `AccountInfo` whose `vpcs` sequence is empty. -/
def demoNoVpcInfo : AccountInfo :=
  ⟨"123", "deploy-tools", "TODO", some "TODO", some "TODO", ⟨"TODO"⟩, []⟩

/-! ## Claim C3: total rendering and the no-primary comment -/

/-- C3: the renderer is total: on any `AccountInfo` none of whose VPCs
satisfies the primary predicate (the empty sequence included) it still
produces the full document, with the single-line `// No suitable VPC
found.` comment in place of a vpc block, and that comment occurs in the
output. -/
theorem renderer_total_no_primary (info : AccountInfo)
    (h : ∀ v ∈ info.vpcs, ¬ IsPrimaryCandidate v) :
    asTypescriptTemplate info =
      "import type \x7b AwsAccountSetupProps \x7d from \x27../types\x27;\n\nexport const "
        ++ camelCase info.accountName
        ++ "Account: AwsAccountSetupProps = \x7b\n    accountNumber: \x27"
        ++ info.accountNumber
        ++ "\x27,\n    accountName: \x27"
        ++ info.accountName
        ++ "\x27,\n    stack: \x27"
        ++ camelCase info.accountName
        ++ "\x27,\n    bucketForArtifacts: \x27TODO\x27,\n    bucketForPrivateConfig: \x27TODO\x27,\n    logging: \x7b\n    streamName: \x27TODO\x27,\n    "
        ++ "// No suitable VPC found."
        ++ "\n\x7d\n" ∧
    strContains (asTypescriptTemplate info) "// No suitable VPC found." = true := by
  have hnone : findPrimaryVPC info.vpcs = none := by
    rw [findPrimaryVPC_eq_find?, List.find?_eq_none]
    intro x hx hp
    exact h x hx ((isPrimaryVPCPred_iff x).mp hp)
  have hvpc : vpcPart info.vpcs = "// No suitable VPC found." := by
    unfold vpcPart
    rw [hnone]
  constructor
  · unfold asTypescriptTemplate
    rw [hvpc]
  · unfold strContains asTypescriptTemplate
    rw [hvpc]
    simp only [String.data_append, List.append_assoc]
    apply containsSub_append_right
    apply containsSub_append_right
    apply containsSub_append_right
    apply containsSub_append_right
    apply containsSub_append_right
    apply containsSub_append_right
    apply containsSub_append_right
    apply containsSub_append_right
    apply containsSub_append_right
    exact containsSub_self_append _ _

/-- Witness for C3 at an `AccountInfo` with an empty `vpcs` sequence. -/
theorem renderer_total_no_primary_witness :
    strContains (asTypescriptTemplate demoNoVpcInfo)
      "// No suitable VPC found." = true :=
  (renderer_total_no_primary demoNoVpcInfo (by decide)).2

/-- Witness for C1 on a two-element sequence whose second VPC is the
unique primary candidate. -/
theorem findPrimaryVPC_characterization_witness :
    IsPrimaryCandidate demoPrimaryVPC ∧
    ∃ pre suf, [demoDefaultVPC, demoPrimaryVPC] = pre ++ demoPrimaryVPC :: suf ∧
      ∀ u ∈ pre, ¬ IsPrimaryCandidate u :=
  (findPrimaryVPC_characterization [demoDefaultVPC, demoPrimaryVPC]).2
    demoPrimaryVPC (by decide)

/-- Witness for C2 at a singleton VPC sequence. -/
theorem findPrimaryVPC_sound_witness :
    demoPrimaryVPC.isDefault = false ∧
    demoPrimaryVPC.subnets.countP (fun s => s.isPublic) = 3 ∧
    demoPrimaryVPC.subnets.countP (fun s => !s.isPublic) = 3 :=
  findPrimaryVPC_sound [demoPrimaryVPC] demoPrimaryVPC (by decide)

/-- Witness for C10 at a singleton VPC sequence. -/
theorem findPrimaryVPC_total_subnets_witness :
    demoPrimaryVPC.subnets.length = 6 :=
  findPrimaryVPC_total_subnets [demoPrimaryVPC] demoPrimaryVPC (by decide)

/-! ## Claims C6 and C7: the shape of the rendered document -/

/-- Spec-side: the exact rendered output literal shape displayed in the
spec, one string literal per displayed line, with the placeholder slots
as parameters: the camel-cased name (exported constant and `stack`
field), the raw account number, the raw account name (`accountName`
field), and the vpc block or comment. -/
def renderShapeSpec (camelName accountNumber rawAccountName vpcBlock : String) :
    String :=
  "import type \x7b AwsAccountSetupProps \x7d from \x27../types\x27;\n\n"
    ++ "export const " ++ camelName ++ "Account: AwsAccountSetupProps = \x7b\n"
    ++ "    accountNumber: \x27" ++ accountNumber ++ "\x27,\n"
    ++ "    accountName: \x27" ++ rawAccountName ++ "\x27,\n"
    ++ "    stack: \x27" ++ camelName ++ "\x27,\n"
    ++ "    bucketForArtifacts: \x27TODO\x27,\n"
    ++ "    bucketForPrivateConfig: \x27TODO\x27,\n"
    ++ "    logging: \x7b\n"
    ++ "    streamName: \x27TODO\x27,\n"
    ++ "    " ++ vpcBlock ++ "\n"
    ++ "\x7d\n"

/-- C7: for every `AccountInfo` the renderer reproduces the spec's literal
shape character for character, with the raw account name in the
`accountName` field and the camel-cased name in the `stack` field. -/
theorem renderer_matches_spec_shape (info : AccountInfo) :
    asTypescriptTemplate info =
      renderShapeSpec (camelCase info.accountName) info.accountNumber
        info.accountName (vpcPart info.vpcs) := by
  apply string_ext
  unfold asTypescriptTemplate renderShapeSpec
  simp only [String.data_append, List.append_assoc]
  rfl

/-- C6 counterexample: at `accountName = "deploy-tools"`, `stack =
"mystack"`, the rendered document does not put the camel-cased name in
the `accountName` field, and does not put the `stack` value in the
`stack` field. -/
theorem renderer_slots_counterexample :
    strContains
      (asTypescriptTemplate
        ⟨"123", "deploy-tools", "mystack", some "TODO", some "TODO", ⟨"TODO"⟩, []⟩)
      "accountName: \x27DeployTools\x27" = false ∧
    strContains
      (asTypescriptTemplate
        ⟨"123", "deploy-tools", "mystack", some "TODO", some "TODO", ⟨"TODO"⟩, []⟩)
      "stack: \x27mystack\x27" = false := by
  constructor
  · decide
  · decide

/-- C6 (amended): the rendered document embeds the camel-cased account
name exactly twice — as the exported constant name and as the `stack`
field's value — the raw account name as the `accountName` field's value,
the raw account number, and the literal `TODO` placeholders for the two
bucket fields and the log-stream field. -/
theorem renderer_embeds_amended (info : AccountInfo) :
    asTypescriptTemplate info =
      "import type \x7b AwsAccountSetupProps \x7d from \x27../types\x27;\n\n"
        ++ "export const " ++ camelCase info.accountName
        ++ "Account: AwsAccountSetupProps = \x7b\n"
        ++ "    accountNumber: \x27" ++ info.accountNumber ++ "\x27,\n"
        ++ "    accountName: \x27" ++ info.accountName ++ "\x27,\n"
        ++ "    stack: \x27" ++ camelCase info.accountName ++ "\x27,\n"
        ++ "    bucketForArtifacts: \x27TODO\x27,\n"
        ++ "    bucketForPrivateConfig: \x27TODO\x27,\n"
        ++ "    logging: \x7b\n"
        ++ "    streamName: \x27TODO\x27,\n"
        ++ "    " ++ vpcPart info.vpcs ++ "\n"
        ++ "\x7d\n" := by
  apply string_ext
  unfold asTypescriptTemplate
  simp only [String.data_append, List.append_assoc]
  rfl

/-! ## Claim C9: subnet order in the rendered block -/

/-- C9: with one non-default VPC whose subnets are, in order, the public
`a`, `b`, `c` and the private `x`, `y`, `z`, the rendered output contains
the id lists in input order. -/
theorem rendered_subnet_order :
    strContains
      (asTypescriptTemplate
        ⟨"123", "deploy-tools", "TODO", some "TODO", some "TODO", ⟨"TODO"⟩,
          [⟨"vpc-1", "123", false,
            [⟨true, "a"⟩, ⟨true, "b"⟩, ⟨true, "c"⟩,
             ⟨false, "x"⟩, ⟨false, "y"⟩, ⟨false, "z"⟩]⟩]⟩)
      "privateSubnets: [\x27x\x27, \x27y\x27, \x27z\x27]" = true ∧
    strContains
      (asTypescriptTemplate
        ⟨"123", "deploy-tools", "TODO", some "TODO", some "TODO", ⟨"TODO"⟩,
          [⟨"vpc-1", "123", false,
            [⟨true, "a"⟩, ⟨true, "b"⟩, ⟨true, "c"⟩,
             ⟨false, "x"⟩, ⟨false, "y"⟩, ⟨false, "z"⟩]⟩]⟩)
      "publicSubnets: [\x27a\x27, \x27b\x27, \x27c\x27]" = true := by
  constructor
  · decide
  · decide

/-! ## Claim C8: the orchestrator core -/

/-- The fixed allow-list in `main`: `accountsToMigrate := []string{"deploy-tools"}`. -/
def accountsToMigrate : List String := ["deploy-tools"]

/-- The `AccountInfo` literal built in `main` for a retained account:
fixed `TODO` placeholders and the account's VPC group. -/
def mkAccountInfo (account : PrismAccount) (vpcs : List PrismVPC) : AccountInfo :=
  ⟨account.accountNumber, account.accountName, "TODO",
    some "TODO", some "TODO", ⟨"TODO"⟩, vpcs⟩

/-- The `vpcs, ok := vpcs[...]` lookup in `main`: the account's VPC group,
or the empty sequence when the map has no entry for the key. -/
def lookupOrEmpty (groups : List (String × List PrismVPC)) (key : String) :
    List PrismVPC :=
  match groups.lookup key with
  | some v => v
  | none => []

/-- The pure core of `main` in `main.go`, with the VPC map represented as
an association list and the allow-list a parameter: the accumulation loop
(`continue` on accounts outside the allow-list, VPC-group lookup with
empty default) followed by rendering each built `AccountInfo` in order. -/
def mainOutputs (accounts : List PrismAccount)
    (vpcGroups : List (String × List PrismVPC))
    (allowList : List String) : List String :=
  let infos := accounts.foldl
    (fun infos account =>
      if !(allowList.contains account.accountName) then infos
      else infos ++ [mkAccountInfo account
        (lookupOrEmpty vpcGroups account.accountNumber)])
    []
  infos.map asTypescriptTemplate

theorem lookupOrEmpty_eq_getD (groups : List (String × List PrismVPC))
    (key : String) : lookupOrEmpty groups key = (groups.lookup key).getD [] := by
  unfold lookupOrEmpty
  cases groups.lookup key <;> rfl

theorem mainOutputs_go (vpcGroups : List (String × List PrismVPC))
    (allowList : List String) :
    ∀ (accounts : List PrismAccount) (acc : List AccountInfo),
      accounts.foldl
        (fun infos account =>
          if !(allowList.contains account.accountName) then infos
          else infos ++ [mkAccountInfo account
            (lookupOrEmpty vpcGroups account.accountNumber)])
        acc
      = acc ++ (accounts.filter
          (fun a => decide (a.accountName ∈ allowList))).map
          (fun a => mkAccountInfo a (lookupOrEmpty vpcGroups a.accountNumber)) := by
  intro accounts
  induction accounts with
  | nil => intro acc; simp
  | cons a t ih =>
    intro acc
    rw [List.foldl_cons]
    by_cases hmem : a.accountName ∈ allowList
    · rw [if_neg (by simp [hmem])]
      rw [ih (acc ++ [mkAccountInfo a (lookupOrEmpty vpcGroups a.accountNumber)])]
      rw [List.filter_cons_of_pos (by simp only [decide_eq_true_eq]; exact hmem)]
      simp
    · rw [if_pos (by simp [hmem])]
      rw [ih acc]
      rw [List.filter_cons_of_neg (by simp only [decide_eq_true_eq]; exact hmem)]

/-- C8: the orchestrator core keeps exactly the accounts whose name is in
the allow-list (exact, case-sensitive string equality), pairs each with
its VPC group (empty when the map has no entry for its account number),
and renders one document per kept account, in the order of the filtered
account list. -/
theorem mainOutputs_spec (accounts : List PrismAccount)
    (vpcGroups : List (String × List PrismVPC)) (allowList : List String) :
    mainOutputs accounts vpcGroups allowList =
      (accounts.filter (fun a => decide (a.accountName ∈ allowList))).map
        (fun a => asTypescriptTemplate
          (mkAccountInfo a ((vpcGroups.lookup a.accountNumber).getD []))) := by
  unfold mainOutputs
  rw [mainOutputs_go vpcGroups allowList accounts []]
  rw [List.nil_append, List.map_map]
  apply List.map_congr_left
  intro a _
  rw [Function.comp_apply, lookupOrEmpty_eq_getD]

end Vpc
